import Mathlib

/-
Shallow embedding of the Kademlia node facade (`KademliaImpl`,
src/protocol/kademlia/impl/kademlia_impl.cpp) of cpp-libp2p.

External collaborators (storage, content routing table, peer repository,
connection manager, routing table queries, content-id codec, message codec,
scheduler clock, session stream) are modelled as an `Env` of oracle
functions; every state-changing or observable action of the node is
recorded as an `Eff` in the order the source performs it, so that the
temporal and frame claims become statements about the produced trace.
-/

namespace Kad

abbrev Bytes := List Nat

abbrev PeerId := Nat

/-- Connectedness values of the connection manager
(`network::ConnectionManager::connectedness`). -/
inductive Connectedness
  | connected
  | canConnect
  | notConnected
  | canNotConnect
deriving DecidableEq, Repr

/-- A pair of peer id and known addresses (`peer::PeerInfo`). -/
structure PeerInfo where
  id : PeerId
  addresses : List Bytes
deriving DecidableEq, Repr

/-- A peer entry of a wire message: peer info plus declared connectedness
(`Message::Peer`). -/
structure MsgPeer where
  info : PeerInfo
  conn_status : Connectedness
deriving DecidableEq, Repr

/-- A record carried by a wire message (`Message::Record`); the expiry is kept
as a number (the wire uses its decimal string). -/
structure WireRecord where
  key : Bytes
  value : Bytes
  expiry : Nat
deriving DecidableEq, Repr

/-- The six inbound message types (`Message::Type`). -/
inductive MsgType
  | putValueT
  | getValueT
  | addProviderT
  | getProvidersT
  | findNodeT
  | pingT
deriving DecidableEq, Repr

/-- The fields of a Kademlia wire message used by the node (`Message`). -/
structure Message where
  type : MsgType
  key : Bytes
  record : Option WireRecord := none
  closer_peers : Option (List MsgPeer) := none
  provider_peers : Option (List MsgPeer) := none
deriving DecidableEq, Repr

/-- TTL classes the node passes to the address repository
(`peer::ttl::kPermanent`, `peer::ttl::kDay`). -/
inductive Ttl
  | permanent
  | day
deriving DecidableEq, Repr

/-- The specialized executors the facade can start. -/
inductive ExecKind
  | getValueE
  | putValueE
  | findProvidersE
  | addProviderE
  | findPeerE
deriving DecidableEq, Repr

/-- The value a user handler is invoked with. -/
inductive HandlerVal
  | foundValue (v : Bytes)
  | foundPeer (p : PeerInfo)
  | foundProviders (ps : List PeerInfo)
deriving DecidableEq, Repr

/-- Error codes of the node API (`kademlia::Error`). -/
inductive KadError
  | noPeers
  | notFound
  | timeout
  | messageSerializeError
  | unexpectedMessageType
deriving DecidableEq, Repr

/-- Observable actions of the node, recorded in source order:
writes to the address repository, the peer routing table and the content
routing table, handler invocations (synchronous, or posted through
`scheduler.schedule`), warnings, session responses / closes, and executor
starts. -/
inductive Eff
  | upsert (pid : PeerId) (addrs : List Bytes) (ttl : Ttl)
  | routingUpdate (pid : PeerId)
  | contentAdd (key : Bytes) (pid : PeerId)
  | handlerNow (v : HandlerVal)
  | schedHandler (v : HandlerVal)
  | warn
  | respond (m : Message)
  | closeSession
  | startExec (k : ExecKind)
deriving DecidableEq, Repr

/-- The external collaborators the node consumes, as oracle functions:
storage, content routing table reads, peer repository, connection manager,
peer routing table queries, address-repository upsert outcome, the remote
peer of the current session's stream, the content-id codec, the message
serializer, and executor start results. -/
structure Env where
  selfId : PeerId
  now : Nat
  closerPeerCount : Nat
  storageGet : Bytes → Option (Bytes × Nat)
  getProvidersFor : Bytes → Option Nat → List PeerId
  getPeerInfo : PeerId → PeerInfo
  connectedness : PeerInfo → Connectedness
  getNearestPeers : Bytes → Nat → List PeerId
  upsertOk : PeerId → List Bytes → Ttl → Bool
  remotePeerId : Option PeerId
  decodeCid : Bytes → Option Bytes
  serializeOk : Message → Bool
  execStart : ExecKind → Except KadError Unit

/-- Modelled from the spec: the `ContentRoutingTable` implementation is not in
the sources (only its caller is); §4.2 specifies `getProvidersFor(key, limit)`
returns at most `limit` provider ids. -/
def contentTableRespectsLimit (env : Env) : Prop :=
  ∀ key limit, (env.getProvidersFor key (some limit)).length ≤ limit

/-- Modelled from the spec: `ContentId::fromWire` is not in the sources; a
malformed content id — in particular the empty byte string — fails to
decode (§7: "empty key, malformed content id" are local predicate failures). -/
def decodeRejectsEmpty (env : Env) : Prop :=
  env.decodeCid [] = none

/-- `KademliaImpl::addPeer`: upsert the peer's addresses into the address
repository (TTL permanent or one day); only when the upsert succeeds, update
the peer routing table. -/
def addPeer (env : Env) (peer_info : PeerInfo) (permanent : Bool) : List Eff :=
  let ttl := if permanent then Ttl.permanent else Ttl.day
  if env.upsertOk peer_info.id peer_info.addresses ttl then
    [Eff.upsert peer_info.id peer_info.addresses ttl,
     Eff.routingUpdate peer_info.id]
  else
    [Eff.upsert peer_info.id peer_info.addresses ttl]

/-- `KademliaImpl::getNearestPeerIds`: query the peer routing table for the
`2 * closerPeerCount` peers nearest to the given id. -/
def getNearestPeerIds (env : Env) (key : Bytes) : List PeerId :=
  env.getNearestPeers key (env.closerPeerCount * 2)

/-- `KademliaImpl::getNearestPeerInfos`: resolve the nearest peer ids through
the peer repository, dropping self, peers without known addresses and peers
the connection manager classifies as `CAN_NOT_CONNECT`. -/
def getNearestPeerInfos (env : Env) (key : Bytes) : List PeerInfo :=
  (getNearestPeerIds env key).filterMap (fun pid =>
    if pid = env.selfId then none
    else
      let info := env.getPeerInfo pid
      if info.addresses = [] then none
      else if env.connectedness info = Connectedness.canNotConnect then none
      else some info)

/-- The local fast-path test of `KademliaImpl::getValue` (lines 128-136): the
stored value is delivered only when it exists, is unexpired
(`scheduler.now() < ts`) and the handler is non-null. -/
def localGetValueHit (env : Env) (key : Bytes) (hasHandler : Bool) :
    Option Bytes :=
  match env.storageGet key with
  | some (v, ts) => if env.now < ts ∧ hasHandler then some v else none
  | none => none

/-- `KademliaImpl::getValue`: if an unexpired record is stored locally and the
handler is non-null, invoke the handler directly and return success; otherwise
fall through to the nearest reachable peers — `NO_PEERS` if there are none,
else start a `GetValueExecutor`. -/
def getValue (env : Env) (key : Bytes) (hasHandler : Bool) :
    Except KadError Unit × List Eff :=
  match localGetValueHit env key hasHandler with
  | some v => (Except.ok (), [Eff.handlerNow (HandlerVal.foundValue v)])
  | none =>
    if getNearestPeerInfos env key = [] then
      (Except.error KadError.noPeers, [])
    else
      (env.execStart ExecKind.getValueE, [Eff.startExec ExecKind.getValueE])

/-- `KademliaImpl::findPeer`: if the peer repository already knows addresses
for the peer, post the handler through the scheduler and return success;
otherwise start a `FindPeerExecutor`. -/
def findPeer (env : Env) (peer_id : PeerId) :
    Except KadError Unit × List Eff :=
  let peer_info := env.getPeerInfo peer_id
  if peer_info.addresses ≠ [] then
    (Except.ok (), [Eff.schedHandler (HandlerVal.foundPeer peer_info)])
  else
    (env.execStart ExecKind.findPeerE, [Eff.startExec ExecKind.findPeerE])

/-- The provider-filter loop of `KademliaImpl::findProviders`: resolve each
provider id, skip peers without addresses or classified `CAN_NOT_CONNECT`,
and stop as soon as `limit` results are collected. -/
def filterLocalProviders (env : Env) (limit : Nat) :
    List PeerId → Nat → List PeerInfo
  | [], _ => []
  | p :: rest, cnt =>
    let info := env.getPeerInfo p
    if info.addresses = [] then filterLocalProviders env limit rest cnt
    else if env.connectedness info = Connectedness.canNotConnect then
      filterLocalProviders env limit rest cnt
    else if limit ≤ cnt + 1 then [info]
    else info :: filterLocalProviders env limit rest (cnt + 1)

/-- `KademliaImpl::findProviders`: read up to `limit` local providers from the
content routing table; only when the returned list is non-empty, `limit` is
positive and the list is strictly longer than `limit` does the local path
filter by reachability and, if at least `limit` survive, post the handler
through the scheduler; in every other case a `FindProvidersExecutor` is
started. -/
def findProviders (env : Env) (key : Bytes) (limit : Nat) :
    Except KadError Unit × List Eff :=
  let providers := env.getProvidersFor key (some limit)
  if providers ≠ [] ∧ 0 < limit ∧ limit < providers.length then
    let result := filterLocalProviders env limit providers 0
    if limit ≤ result.length then
      (Except.ok (), [Eff.schedHandler (HandlerVal.foundProviders result)])
    else
      (env.execStart ExecKind.findProvidersE,
       [Eff.startExec ExecKind.findProvidersE])
  else
    (env.execStart ExecKind.findProvidersE,
     [Eff.startExec ExecKind.findProvidersE])

/-- The peer-collection loop shared by `onGetValue`, `onGetProviders` and
`onFindNode`: resolve each id, skip peers without addresses, annotate with
connectedness, and stop once `closerPeerCount` entries are collected. -/
def collectPeers (env : Env) : List PeerId → Nat → List MsgPeer
  | [], _ => []
  | p :: rest, cnt =>
    let info := env.getPeerInfo p
    if info.addresses = [] then collectPeers env rest cnt
    else
      let mp : MsgPeer := ⟨info, env.connectedness info⟩
      if env.closerPeerCount ≤ cnt + 1 then [mp]
      else mp :: collectPeers env rest (cnt + 1)

/-- `KademliaImpl::onAddProvider` loop body: for each declared provider, if the
session stream's remote peer id is known and equals the provider's declared
id, record the provider in the content routing table and `addPeer` it;
otherwise do nothing. -/
def addProviderLoop (env : Env) (cid : Bytes) : List MsgPeer → List Eff
  | [] => []
  | provider :: rest =>
    (match env.remotePeerId with
     | some rid =>
       if rid = provider.info.id then
         Eff.contentAdd cid provider.info.id :: addPeer env provider.info false
       else []
     | none => []) ++ addProviderLoop env cid rest

/-- `KademliaImpl::onAddProvider`: require a `provider_peers` list and a key
that decodes as a content id, then run the self-certification loop. -/
def onAddProvider (env : Env) (msg : Message) : List Eff :=
  match msg.provider_peers with
  | none => [Eff.warn]
  | some providers =>
    match env.decodeCid msg.key with
    | none => [Eff.warn]
    | some cid => addProviderLoop env cid providers

/-- `KademliaImpl::onGetValue`: drop empty or undecodable keys with a warning;
otherwise attach known providers and the locally stored record to the message
and write it back (closing the session only on a serialize failure). -/
def onGetValue (env : Env) (msg : Message) : List Eff :=
  if msg.key = [] then [Eff.warn]
  else
    match env.decodeCid msg.key with
    | none => [Eff.warn]
    | some cid =>
      let providers := env.getProvidersFor cid none
      let msg1 :=
        if providers ≠ [] then
          { msg with provider_peers := some (collectPeers env providers 0) }
        else msg
      let msg2 :=
        match env.storageGet cid with
        | some (v, expire) => { msg1 with record := some ⟨cid, v, expire⟩ }
        | none => msg1
      if env.serializeOk msg2 then [Eff.respond msg2] else [Eff.closeSession]

/-- `KademliaImpl::onGetProviders`: drop empty or undecodable keys with a
warning; otherwise attach known providers and the nearest routing-table peers
to the message and write it back. -/
def onGetProviders (env : Env) (msg : Message) : List Eff :=
  if msg.key = [] then [Eff.warn]
  else
    match env.decodeCid msg.key with
    | none => [Eff.warn]
    | some cid =>
      let provider_ids :=
        env.getProvidersFor cid (some (env.closerPeerCount * 2))
      let msg1 :=
        if provider_ids ≠ [] then
          let peers := collectPeers env provider_ids 0
          if peers ≠ [] then { msg with provider_peers := some peers } else msg
        else msg
      let nearest_ids := env.getNearestPeers cid (env.closerPeerCount * 2)
      let msg2 :=
        if nearest_ids ≠ [] then
          let peers := collectPeers env nearest_ids 0
          if peers ≠ [] then { msg1 with closer_peers := some peers } else msg1
        else msg1
      if env.serializeOk msg2 then [Eff.respond msg2] else [Eff.closeSession]

/-- The upserts `KademliaImpl::onFindNode` performs for an attached
`closer_peers` list: every entry not declared `CAN_NOT_CONNECT` has its
addresses upserted into the address repository with a one-day TTL. -/
def findNodeUpserts (cps : List MsgPeer) : List Eff :=
  cps.filterMap (fun peer =>
    if peer.conn_status ≠ Connectedness.canNotConnect then
      some (Eff.upsert peer.info.id peer.info.addresses Ttl.day)
    else none)

/-- The part of `KademliaImpl::onFindNode` after `msg.closer_peers.reset()`:
validate the key — dropping the message with a warning on failure — and
otherwise respond with the nearest routing-table peers. -/
def onFindNodeRespond (env : Env) (msg1 : Message) : List Eff :=
  match env.decodeCid msg1.key with
  | none => [Eff.warn]
  | some cid =>
    let ids := getNearestPeerIds env cid
    let peers := collectPeers env ids 0
    let msg2 :=
      if peers ≠ [] then { msg1 with closer_peers := some peers } else msg1
    if env.serializeOk msg2 then [Eff.respond msg2] else [Eff.closeSession]

/-- `KademliaImpl::onFindNode`: first consume and drop any attached
`closer_peers` (upserting the entries not declared `CAN_NOT_CONNECT`), then
run the validate-and-respond phase on the message with the attached list
removed. -/
def onFindNode (env : Env) (msg : Message) : List Eff :=
  (match msg.closer_peers with
   | some cps => findNodeUpserts cps
   | none => []) ++
    onFindNodeRespond env { msg with closer_peers := none }

/-- The random-walk configuration (`Config::randomWalk`); `interval` and
`delay` are scheduler ticks. -/
structure RandomWalkConfig where
  interval : Int
  delay : Int
  queries_per_period : Nat
deriving DecidableEq, Repr

/-- The delay `KademliaImpl::randomWalk` schedules after the walk of the given
iteration (the iteration counter starts at 0 and is read before being
incremented): `delay` when the iteration is not a multiple of
`queries_per_period`, else `interval − delay · queries_per_period`. -/
def randomWalkDelay (cfg : RandomWalkConfig) (iteration : Nat) : Int :=
  if iteration % cfg.queries_per_period ≠ 0 then cfg.delay
  else cfg.interval - cfg.delay * (cfg.queries_per_period : Int)

/-- The time at which the n-th random walk is issued (walk 0 at time 0; each
walk schedules the next after `randomWalkDelay`). -/
def walkTime (cfg : RandomWalkConfig) : Nat → Int
  | 0 => 0
  | n + 1 => walkTime cfg n + randomWalkDelay cfg n

/-- The messages written back to the session in a trace. -/
def respondMsgs (effs : List Eff) : List Message :=
  effs.filterMap (fun e =>
    match e with
    | Eff.respond m => some m
    | _ => none)

/-- Whether an effect is a synchronous handler invocation. -/
def isHandlerNow : Eff → Bool
  | Eff.handlerNow _ => true
  | _ => false

/-- The peer a state-changing effect touches, if any. -/
def effTarget : Eff → Option PeerId
  | Eff.contentAdd _ pid => some pid
  | Eff.upsert pid _ _ => some pid
  | Eff.routingUpdate pid => some pid
  | _ => none

/-- A fixed environment used to instantiate theorems on concrete inputs. -/
def env0 : Env where
  selfId := 0
  now := 0
  closerPeerCount := 20
  storageGet := fun _ => none
  getProvidersFor := fun _ _ => []
  getPeerInfo := fun pid => ⟨pid, []⟩
  connectedness := fun _ => Connectedness.connected
  getNearestPeers := fun _ _ => []
  upsertOk := fun _ _ _ => true
  remotePeerId := some 1
  decodeCid := fun b => if b = [] then none else some b
  serializeOk := fun _ => true
  execStart := fun _ => Except.ok ()

/-- An environment whose storage holds a record (value `[7]`, expiry 5) for
every key; the clock reads 0, so the record is unexpired. -/
def envLocalHit : Env :=
  { env0 with storageGet := fun _ => some ([7], 5) }

/-- An environment whose address-repository upsert always fails. -/
def envNoUpsert : Env :=
  { env0 with upsertOk := fun _ _ _ => false }

/-- An environment whose peer repository knows an address for every peer. -/
def envAddr : Env :=
  { env0 with getPeerInfo := fun pid => ⟨pid, [[3]]⟩ }

/-- An environment whose content routing table knows exactly one provider
(peer 5, reachable, with a known address) for every key, honoring the
requested limit. -/
def envProv : Env :=
  { env0 with
    getProvidersFor := fun _ l =>
      match l with
      | some lim => if lim = 0 then [] else [5]
      | none => [5],
    getPeerInfo := fun pid => ⟨pid, [[1]]⟩ }

/-- The random-walk configuration of scenario S5: interval 100, delay 10, two
queries per period. -/
def rwCfg : RandomWalkConfig := ⟨100, 10, 2⟩

/-- An ADD_PROVIDER message declaring two providers, of which only peer 1
matches `env0`'s session remote peer. -/
def msgAddProv : Message :=
  { type := MsgType.addProviderT, key := [1],
    provider_peers :=
      some [⟨⟨1, [[4]]⟩, Connectedness.connected⟩,
            ⟨⟨2, [[6]]⟩, Connectedness.connected⟩] }

/-- A FIND_NODE message with a valid key whose only attached peer is declared
`CAN_NOT_CONNECT`. -/
def msgCNC : Message :=
  { type := MsgType.findNodeT, key := [1],
    closer_peers := some [⟨⟨9, [[2]]⟩, Connectedness.canNotConnect⟩] }

/-- A FIND_NODE message with a valid key carrying one reachable and one
`CAN_NOT_CONNECT` attached peer. -/
def msgFN : Message :=
  { type := MsgType.findNodeT, key := [1],
    closer_peers :=
      some [⟨⟨9, [[2]]⟩, Connectedness.connected⟩,
            ⟨⟨8, [[3]]⟩, Connectedness.canNotConnect⟩] }

/-- A message with an empty (hence invalid) key. -/
def msgBadKey : Message := { type := MsgType.getValueT, key := [] }

/-- A FIND_NODE message with an invalid (empty) key carrying one reachable
attached peer. -/
def msgC8 : Message :=
  { type := MsgType.findNodeT, key := [],
    closer_peers := some [⟨⟨9, [[2]]⟩, Connectedness.connected⟩] }

theorem respondMsgs_append (l1 l2 : List Eff) :
    respondMsgs (l1 ++ l2) = respondMsgs l1 ++ respondMsgs l2 :=
  List.filterMap_append l1 l2 _

theorem respond_mem_respondMsgs {m : Message} {l : List Eff}
    (h : Eff.respond m ∈ l) : m ∈ respondMsgs l :=
  List.mem_filterMap.mpr ⟨Eff.respond m, h, rfl⟩

theorem findNodeUpserts_shape {cps : List MsgPeer} {e : Eff}
    (he : e ∈ findNodeUpserts cps) :
    ∃ p ∈ cps, e = Eff.upsert p.info.id p.info.addresses Ttl.day := by
  rcases List.mem_filterMap.mp he with ⟨p, hp, hf⟩
  refine ⟨p, hp, ?_⟩
  by_cases hs : p.conn_status ≠ Connectedness.canNotConnect
  · rw [if_pos hs] at hf
    exact (Option.some_injective _ hf).symm
  · rw [if_neg hs] at hf
    exact absurd hf (Option.noConfusion)

theorem mem_findNodeUpserts {cps : List MsgPeer} {p : MsgPeer} (hp : p ∈ cps)
    (hs : p.conn_status ≠ Connectedness.canNotConnect) :
    Eff.upsert p.info.id p.info.addresses Ttl.day ∈ findNodeUpserts cps :=
  List.mem_filterMap.mpr ⟨p, hp, by rw [if_pos hs]⟩

theorem respondMsgs_findNodeUpserts (cps : List MsgPeer) :
    respondMsgs (findNodeUpserts cps) = [] := by
  rw [List.eq_nil_iff_forall_not_mem]
  intro m hm
  rcases List.mem_filterMap.mp hm with ⟨e, he, hf⟩
  rcases findNodeUpserts_shape he with ⟨p, -, rfl⟩
  exact Option.noConfusion hf

/-- C10: in `addPeer(peer_info, permanent)` the peer routing table is updated
only when the address-repository upsert succeeds; when the upsert fails, the
trace holds the failed upsert alone and the routing table is untouched. -/
theorem addPeer_routing_only_after_upsert (env : Env) (peer_info : PeerInfo)
    (permanent : Bool) :
    (env.upsertOk peer_info.id peer_info.addresses
        (if permanent then Ttl.permanent else Ttl.day) = false →
      addPeer env peer_info permanent
        = [Eff.upsert peer_info.id peer_info.addresses
            (if permanent then Ttl.permanent else Ttl.day)]) ∧
    (∀ pid, Eff.routingUpdate pid ∈ addPeer env peer_info permanent →
      pid = peer_info.id ∧
        env.upsertOk peer_info.id peer_info.addresses
          (if permanent then Ttl.permanent else Ttl.day) = true) := by
  constructor
  · intro h
    simp [addPeer, h]
  · intro pid hp
    cases hu : env.upsertOk peer_info.id peer_info.addresses
        (if permanent then Ttl.permanent else Ttl.day) <;>
      simp [addPeer, hu] at hp
    exact ⟨hp, rfl⟩

/-- C10 witness: with an always-failing upsert, `addPeer` leaves the routing
table untouched. -/
theorem addPeer_routing_only_after_upsert_witness :
    addPeer envNoUpsert ⟨3, [[1]]⟩ true = [Eff.upsert 3 [[1]] Ttl.permanent] :=
  (addPeer_routing_only_after_upsert envNoUpsert ⟨3, [[1]]⟩ true).1 rfl

/-- C9: a null handler defeats the local fast-path of `getValue`: even with an
unexpired local record, no handler runs, and the call takes the network path —
`NO_PEERS` when no reachable nearest peers exist, else the executor starts. -/
theorem getValue_nullHandler_no_shortcircuit (env : Env) (key : Bytes)
    (v : Bytes) (ts : Nat) (hstore : env.storageGet key = some (v, ts))
    (_hfresh : env.now < ts) :
    (∀ e ∈ (getValue env key false).2, isHandlerNow e = false) ∧
    (getNearestPeerInfos env key = [] →
      getValue env key false = (Except.error KadError.noPeers, [])) ∧
    (getNearestPeerInfos env key ≠ [] →
      (getValue env key false).2 = [Eff.startExec ExecKind.getValueE]) := by
  have hl : localGetValueHit env key false = none := by
    simp [localGetValueHit, hstore]
  refine ⟨?_, ?_, ?_⟩
  · intro e he
    rw [getValue, hl] at he
    by_cases hn : getNearestPeerInfos env key = []
    · rw [if_pos hn] at he
      simp at he
    · rw [if_neg hn] at he
      simp at he
      simp [he, isHandlerNow]
  · intro hn
    rw [getValue, hl, if_pos hn]
  · intro hn
    rw [getValue, hl, if_neg hn]

/-- C9 witness: record present and unexpired, null handler, empty routing
table: the call is not short-circuited and returns `NO_PEERS`. -/
theorem getValue_nullHandler_no_shortcircuit_witness :
    getValue envLocalHit [1] false = (Except.error KadError.noPeers, []) :=
  (getValue_nullHandler_no_shortcircuit envLocalHit [1] [7] 5 rfl
    (by decide)).2.1 (by decide)

/-- C6: with no unexpired locally stored record, `getValue` returns `NO_PEERS`
synchronously — with no executor start and no handler invocation — exactly
when the routing table yields zero reachable candidates. -/
theorem getValue_noPeers_iff (env : Env) (key : Bytes) (hasHandler : Bool)
    (hmiss : ∀ v ts, env.storageGet key = some (v, ts) → ts ≤ env.now) :
    getValue env key hasHandler = (Except.error KadError.noPeers, []) ↔
      getNearestPeerInfos env key = [] := by
  have hl : localGetValueHit env key hasHandler = none := by
    unfold localGetValueHit
    rcases hx : env.storageGet key with - | ⟨v, ts⟩
    · rfl
    · simp [Nat.not_lt.mpr (hmiss v ts hx)]
  rw [getValue, hl]
  by_cases hn : getNearestPeerInfos env key = []
  · simp [hn]
  · simp only [if_neg hn]
    constructor
    · intro h
      exact absurd (congrArg Prod.snd h) (by simp)
    · intro h
      exact absurd h hn

/-- C6 witness: fresh node, empty storage, empty routing table: `getValue`
returns `NO_PEERS` synchronously. -/
theorem getValue_noPeers_iff_witness :
    getValue env0 [1] true = (Except.error KadError.noPeers, []) :=
  (getValue_noPeers_iff env0 [1] true
    (fun v ts h => by simp [env0] at h)).mpr (by decide)

/-- C1 counterexample: on a local `getValue` hit the user handler is invoked
synchronously inside the API call — the trace is exactly one `handlerNow`
effect and contains no `scheduler.schedule` posting, refuting that delivery
is always posted through the scheduler. -/
theorem getValue_localHit_handler_sync_cex :
    (getValue envLocalHit [1] true).2
        = [Eff.handlerNow (HandlerVal.foundValue [7])] ∧
      Eff.schedHandler (HandlerVal.foundValue [7])
        ∉ (getValue envLocalHit [1] true).2 := by
  decide

/-- C1 (amended): `findPeer` and `findProviders` deliver local fast-path
results by posting the handler through `scheduler.schedule` (no synchronous
handler invocation ever appears in their traces), but `getValue`'s local
fast-path invokes the handler synchronously inside the API call. -/
theorem localFastPath_delivery (env : Env) :
    (∀ pid, ∀ e ∈ (findPeer env pid).2, isHandlerNow e = false) ∧
    (∀ key limit, ∀ e ∈ (findProviders env key limit).2,
      isHandlerNow e = false) ∧
    (∀ pid, (env.getPeerInfo pid).addresses ≠ [] →
      (findPeer env pid).2
        = [Eff.schedHandler (HandlerVal.foundPeer (env.getPeerInfo pid))]) ∧
    (∀ key v ts, env.storageGet key = some (v, ts) → env.now < ts →
      (getValue env key true).2 = [Eff.handlerNow (HandlerVal.foundValue v)]) := by
  refine ⟨?_, ?_, ?_, ?_⟩
  · intro pid e he
    rw [findPeer] at he
    split at he <;> simp_all [isHandlerNow]
  · intro key limit e he
    simp only [findProviders] at he
    split at he
    · split at he <;> simp_all [isHandlerNow]
    · simp_all [isHandlerNow]
  · intro pid h
    simp [findPeer, h]
  · intro key v ts hs hlt
    simp [getValue, localGetValueHit, hs, hlt]

/-- C1 (amended) witness: a locally known peer is delivered through the
scheduler, while a locally stored value is delivered synchronously. -/
theorem localFastPath_delivery_witness :
    (findPeer envAddr 5).2
        = [Eff.schedHandler (HandlerVal.foundPeer ⟨5, [[3]]⟩)] ∧
      (getValue envLocalHit [1] true).2
        = [Eff.handlerNow (HandlerVal.foundValue [7])] :=
  ⟨(localFastPath_delivery envAddr).2.2.1 5 (by decide),
   (localFastPath_delivery envLocalHit).2.2.2 [1] [7] 5 rfl (by decide)⟩

theorem randomWalkDelay_periodic (cfg : RandomWalkConfig) (i : Nat) :
    randomWalkDelay cfg (i + cfg.queries_per_period) = randomWalkDelay cfg i := by
  unfold randomWalkDelay
  rw [Nat.add_mod_right]

theorem walkTime_shift (cfg : RandomWalkConfig) (n : Nat) :
    walkTime cfg (n + cfg.queries_per_period) - walkTime cfg n
      = walkTime cfg cfg.queries_per_period := by
  induction n with
  | zero => simp [walkTime]
  | succ k ih =>
    have hstep : k + 1 + cfg.queries_per_period
        = (k + cfg.queries_per_period) + 1 := by omega
    rw [hstep]
    simp only [walkTime]
    rw [randomWalkDelay_periodic]
    omega

theorem walkTime_block (cfg : RandomWalkConfig) :
    ∀ m, 0 < m → m ≤ cfg.queries_per_period →
      walkTime cfg m
        = cfg.interval - cfg.delay * (cfg.queries_per_period : Int)
          + cfg.delay * ((m : Int) - 1) := by
  intro m
  induction m with
  | zero => intro h; exact absurd h (lt_irrefl 0)
  | succ n ih =>
    intro _ hle
    rcases Nat.eq_zero_or_pos n with rfl | hn
    · simp only [walkTime]
      have h0 : (0 : Nat) % cfg.queries_per_period = 0 := Nat.zero_mod _
      simp [randomWalkDelay, h0]
    · have hnq : n < cfg.queries_per_period := by omega
      have hmod : n % cfg.queries_per_period = n := Nat.mod_eq_of_lt hnq
      have hd : randomWalkDelay cfg n = cfg.delay := by
        unfold randomWalkDelay
        rw [if_pos]
        rw [hmod]
        omega
      simp only [walkTime]
      rw [hd, ih hn (le_of_lt hnq)]
      push_cast
      ring

/-- C2 counterexample: with interval 100, delay 10 and two queries per period,
two consecutive walks (one full period) span 90 ticks, not the interval of
100 — the full cycle does not equal `interval`. -/
theorem randomWalk_cycle_cex :
    walkTime rwCfg (0 + rwCfg.queries_per_period) - walkTime rwCfg 0
      ≠ rwCfg.interval := by
  decide

/-- C2 (amended): each period issues `queries_per_period` walks, the walks of
a non-zero iteration residue spaced by `delay`, the walk closing a period
followed by `interval − delay · queries_per_period`; consequently one full
cycle of `queries_per_period` walks spans `interval − delay`, not `interval`. -/
theorem randomWalk_schedule (cfg : RandomWalkConfig)
    (hq : 0 < cfg.queries_per_period) :
    (∀ i, i % cfg.queries_per_period ≠ 0 →
      walkTime cfg (i + 1) - walkTime cfg i = cfg.delay) ∧
    (∀ i, i % cfg.queries_per_period = 0 →
      walkTime cfg (i + 1) - walkTime cfg i
        = cfg.interval - cfg.delay * (cfg.queries_per_period : Int)) ∧
    (∀ n, walkTime cfg (n + cfg.queries_per_period) - walkTime cfg n
        = cfg.interval - cfg.delay) := by
  refine ⟨?_, ?_, ?_⟩
  · intro i hi
    simp [walkTime, randomWalkDelay, hi]
  · intro i hi
    simp [walkTime, randomWalkDelay, hi]
  · intro n
    rw [walkTime_shift, walkTime_block cfg cfg.queries_per_period hq le_rfl]
    ring

/-- C2 (amended) witness: with interval 100, delay 10 and two queries per
period, one full cycle spans 100 − 10 = 90 ticks. -/
theorem randomWalk_schedule_witness :
    walkTime rwCfg (0 + rwCfg.queries_per_period) - walkTime rwCfg 0
      = rwCfg.interval - rwCfg.delay :=
  (randomWalk_schedule rwCfg (by decide)).2.2 0

/-- C3: when the content routing table honors the `limit` it is given (spec
§4.2), the guard `providers.size() > limit` of `findProviders` can never
hold, so for every positive limit the local fast-path is unreachable and a
`FindProvidersExecutor` is always started — even when at least `limit`
reachable providers are known locally. -/
theorem findProviders_local_path_unreachable (env : Env)
    (hct : contentTableRespectsLimit env) (key : Bytes) (limit : Nat)
    (_hl : 0 < limit) :
    (findProviders env key limit).2 = [Eff.startExec ExecKind.findProvidersE] := by
  have hle := hct key limit
  have hc : ¬(env.getProvidersFor key (some limit) ≠ [] ∧ 0 < limit ∧
      limit < (env.getProvidersFor key (some limit)).length) := by
    rintro ⟨-, -, hlt⟩
    omega
  simp [findProviders, hc]

/-- C3 witness (the failing input): limit 1 with exactly one reachable,
addressable local provider — the claim requires local delivery, the code
starts the network executor. -/
theorem findProviders_local_path_unreachable_witness :
    (findProviders envProv [1] 1).2 = [Eff.startExec ExecKind.findProvidersE] :=
  findProviders_local_path_unreachable envProv
    (by
      intro k l
      cases l <;> simp [envProv, env0])
    [1] 1 (by decide)

theorem addProviderLoop_mem (env : Env) (cid : Bytes) (e : Eff) :
    ∀ ps : List MsgPeer, (e ∈ addProviderLoop env cid ps ↔
      ∃ p ∈ ps, env.remotePeerId = some p.info.id ∧
        e ∈ Eff.contentAdd cid p.info.id :: addPeer env p.info false) := by
  intro ps
  induction ps with
  | nil => simp [addProviderLoop]
  | cons p rest ih =>
    simp only [addProviderLoop, List.mem_append, ih, List.mem_cons]
    constructor
    · rintro (he | ⟨q, hq, hr, hm⟩)
      · rcases hrr : env.remotePeerId with - | rid <;> rw [hrr] at he <;>
          dsimp only at he
        · simp at he
        · by_cases hid : rid = p.info.id
          · rw [if_pos hid] at he
            exact ⟨p, Or.inl rfl, by rw [hid], List.mem_cons.mp he⟩
          · rw [if_neg hid] at he
            simp at he
      · exact ⟨q, Or.inr hq, hr, hm⟩
    · rintro ⟨q, hq | hq, hr, hm⟩
      · subst hq
        exact Or.inl (by rw [hr]; simpa using hm)
      · exact Or.inr ⟨q, hq, hr, hm⟩

/-- C4: `onAddProvider` is self-certifying: every state-changing effect it
produces (content-table insert, address upsert, routing update) targets the
session's remote peer, and each declared provider whose id equals the remote
peer is recorded in the content routing table and upserted as a peer. -/
theorem onAddProvider_self_certification (env : Env) (msg : Message)
    (providers : List MsgPeer) (cid : Bytes)
    (hp : msg.provider_peers = some providers)
    (hk : env.decodeCid msg.key = some cid) :
    (∀ e ∈ onAddProvider env msg, ∀ pid, effTarget e = some pid →
      env.remotePeerId = some pid) ∧
    (∀ p ∈ providers, env.remotePeerId = some p.info.id →
      Eff.contentAdd cid p.info.id ∈ onAddProvider env msg ∧
        Eff.upsert p.info.id p.info.addresses Ttl.day ∈ onAddProvider env msg) := by
  have hrw : onAddProvider env msg = addProviderLoop env cid providers := by
    unfold onAddProvider
    rw [hp, hk]
  rw [hrw]
  constructor
  · intro e he pid ht
    rcases (addProviderLoop_mem env cid e providers).mp he with ⟨p, -, hr, hm⟩
    rcases List.mem_cons.mp hm with rfl | hm2
    · simp only [effTarget, Option.some.injEq] at ht
      rw [hr, ht]
    · cases hu : env.upsertOk p.info.id p.info.addresses Ttl.day <;>
        simp [addPeer, hu] at hm2
      · subst hm2
        simp only [effTarget, Option.some.injEq] at ht
        rw [hr, ht]
      · rcases hm2 with rfl | rfl <;>
          simp only [effTarget, Option.some.injEq] at ht <;> rw [hr, ht]
  · intro p hpm hr
    constructor
    · exact (addProviderLoop_mem env cid _ providers).mpr
        ⟨p, hpm, hr, List.mem_cons_self _ _⟩
    · refine (addProviderLoop_mem env cid _ providers).mpr ⟨p, hpm, hr, ?_⟩
      refine List.mem_cons_of_mem _ ?_
      cases hu : env.upsertOk p.info.id p.info.addresses Ttl.day <;>
        simp [addPeer, hu]

/-- C4 witness: with remote peer 1, the matching declared provider is recorded
and upserted; the trace holds effects only for peer 1. -/
theorem onAddProvider_self_certification_witness :
    Eff.contentAdd [1] 1 ∈ onAddProvider env0 msgAddProv ∧
      Eff.upsert 1 [[4]] Ttl.day ∈ onAddProvider env0 msgAddProv :=
  (onAddProvider_self_certification env0 msgAddProv
      [⟨⟨1, [[4]]⟩, Connectedness.connected⟩,
       ⟨⟨2, [[6]]⟩, Connectedness.connected⟩] [1] rfl rfl).2
    ⟨⟨1, [[4]]⟩, Connectedness.connected⟩ (by decide) rfl

/-- C5 counterexample: an attached peer declared `CAN_NOT_CONNECT` is never
upserted into the address repository, refuting that each attached peer's
addresses are upserted. -/
theorem onFindNode_upsert_each_peer_cex :
    Eff.upsert 9 [[2]] Ttl.day ∉ onFindNode env0 msgCNC := by
  decide

/-- C5 (amended): for an inbound FIND_NODE carrying a `closer_peers` list,
each attached peer not declared `CAN_NOT_CONNECT` has its addresses upserted
with a 24-hour TTL (`CAN_NOT_CONNECT` entries are skipped), and the attached
list is dropped before the response is built: the response is identical to
that of the same message without the list, and its `closer_peers` are built
from the responder's own routing table. -/
theorem onFindNode_one_way (env : Env) (msg : Message) (cps : List MsgPeer)
    (hc : msg.closer_peers = some cps) :
    (∀ p ∈ cps, p.conn_status ≠ Connectedness.canNotConnect →
      Eff.upsert p.info.id p.info.addresses Ttl.day ∈ onFindNode env msg) ∧
    respondMsgs (onFindNode env msg)
      = respondMsgs (onFindNode env { msg with closer_peers := none }) ∧
    (∀ m ∈ respondMsgs (onFindNode env msg), ∀ cid,
      env.decodeCid msg.key = some cid →
      m.closer_peers = none ∨
        m.closer_peers
          = some (collectPeers env (getNearestPeerIds env cid) 0)) := by
  have h1 : onFindNode env msg
      = findNodeUpserts cps
        ++ onFindNodeRespond env { msg with closer_peers := none } := by
    unfold onFindNode
    rw [hc]
  have h2 : onFindNode env { msg with closer_peers := none }
      = onFindNodeRespond env { msg with closer_peers := none } := rfl
  refine ⟨?_, ?_, ?_⟩
  · intro p hp hs
    rw [h1]
    exact List.mem_append_left _ (mem_findNodeUpserts hp hs)
  · rw [h1, h2, respondMsgs_append, respondMsgs_findNodeUpserts,
      List.nil_append]
  · intro m hm cid hk
    rw [h1, respondMsgs_append, respondMsgs_findNodeUpserts,
      List.nil_append] at hm
    simp only [onFindNodeRespond, hk] at hm
    by_cases hp : collectPeers env (getNearestPeerIds env cid) 0 = []
    · simp only [hp, ne_eq, not_true_eq_false, if_false, ite_false] at hm
      split at hm
      · simp [respondMsgs] at hm
        subst hm
        left
        rfl
      · simp [respondMsgs] at hm
    · simp only [ne_eq, hp, not_false_eq_true, if_true, ite_true] at hm
      split at hm
      · simp [respondMsgs] at hm
        subst hm
        right
        rfl
      · simp [respondMsgs] at hm

/-- C5 (amended) witness: the reachable attached peer is upserted and the
response is the one of the list-free message. -/
theorem onFindNode_one_way_witness :
    Eff.upsert 9 [[2]] Ttl.day ∈ onFindNode env0 msgFN ∧
      respondMsgs (onFindNode env0 msgFN)
        = respondMsgs (onFindNode env0 { msgFN with closer_peers := none }) :=
  ⟨(onFindNode_one_way env0 msgFN
      [⟨⟨9, [[2]]⟩, Connectedness.connected⟩,
       ⟨⟨8, [[3]]⟩, Connectedness.canNotConnect⟩] rfl).1
      ⟨⟨9, [[2]]⟩, Connectedness.connected⟩ (by decide) (by decide),
   (onFindNode_one_way env0 msgFN
      [⟨⟨9, [[2]]⟩, Connectedness.connected⟩,
       ⟨⟨8, [[3]]⟩, Connectedness.canNotConnect⟩] rfl).2.1⟩

/-- C7: an inbound GET_VALUE, GET_PROVIDERS or FIND_NODE message whose key is
empty or fails to decode as a content id is dropped with a warning: no
response is written and the session is not closed. -/
theorem invalid_key_drops_without_response (env : Env) (msg : Message)
    (hempty : decodeRejectsEmpty env)
    (hbad : msg.key = [] ∨ env.decodeCid msg.key = none) :
    onGetValue env msg = [Eff.warn] ∧
    onGetProviders env msg = [Eff.warn] ∧
    Eff.warn ∈ onFindNode env msg ∧
    (∀ m, Eff.respond m ∉ onFindNode env msg) ∧
    Eff.closeSession ∉ onFindNode env msg := by
  have hk : env.decodeCid msg.key = none := by
    rcases hbad with h | h
    · rw [h]
      exact hempty
    · exact h
  have hgv : onGetValue env msg = [Eff.warn] := by
    by_cases hke : msg.key = [] <;> simp [onGetValue, hke, hk]
  have hgp : onGetProviders env msg = [Eff.warn] := by
    by_cases hke : msg.key = [] <;> simp [onGetProviders, hke, hk]
  have hfn : onFindNode env msg
      = (match msg.closer_peers with
         | some cps => findNodeUpserts cps
         | none => ([] : List Eff)) ++ [Eff.warn] := by
    unfold onFindNode onFindNodeRespond
    simp [hk]
  have hup : ∀ e ∈ (match msg.closer_peers with
      | some cps => findNodeUpserts cps
      | none => ([] : List Eff)),
      ∃ p a, e = Eff.upsert p a Ttl.day := by
    intro e he
    rcases hcp : msg.closer_peers with - | cps <;> rw [hcp] at he
    · simp at he
    · rcases findNodeUpserts_shape he with ⟨p, -, rfl⟩
      exact ⟨p.info.id, p.info.addresses, rfl⟩
  refine ⟨hgv, hgp, ?_, ?_, ?_⟩
  · rw [hfn]
    exact List.mem_append_right _ (by simp)
  · intro m hm
    rw [hfn] at hm
    rcases List.mem_append.mp hm with h | h
    · rcases hup _ h with ⟨p, a, hcontra⟩
      exact Eff.noConfusion hcontra
    · simp at h
  · intro hm
    rw [hfn] at hm
    rcases List.mem_append.mp hm with h | h
    · rcases hup _ h with ⟨p, a, hcontra⟩
      exact Eff.noConfusion hcontra
    · simp at h

/-- C7 witness: an empty key is dropped with a warning by all three handlers
and the FIND_NODE session is not closed. -/
theorem invalid_key_drops_without_response_witness :
    onGetValue env0 msgBadKey = [Eff.warn] ∧
      onGetProviders env0 msgBadKey = [Eff.warn] ∧
      Eff.warn ∈ onFindNode env0 msgBadKey ∧
      Eff.closeSession ∉ onFindNode env0 msgBadKey := by
  have h := invalid_key_drops_without_response env0 msgBadKey rfl (Or.inl rfl)
  exact ⟨h.1, h.2.1, h.2.2.1, h.2.2.2.2⟩

/-- C8: when a FIND_NODE message with an invalid key carries a `closer_peers`
list, the address-repository upserts are performed before key validation, so
they persist although the message is then dropped with a warning and without
a response: the trace is exactly the upserts followed by the warning. -/
theorem onFindNode_upserts_persist_on_invalid_key (env : Env) (msg : Message)
    (cps : List MsgPeer) (hc : msg.closer_peers = some cps)
    (hbad : env.decodeCid msg.key = none) :
    onFindNode env msg = findNodeUpserts cps ++ [Eff.warn] ∧
    (∀ p ∈ cps, p.conn_status ≠ Connectedness.canNotConnect →
      Eff.upsert p.info.id p.info.addresses Ttl.day ∈ onFindNode env msg) := by
  have h1 : onFindNode env msg = findNodeUpserts cps ++ [Eff.warn] := by
    unfold onFindNode onFindNodeRespond
    rw [hc]
    simp [hbad]
  refine ⟨h1, fun p hp hs => ?_⟩
  rw [h1]
  exact List.mem_append_left _ (mem_findNodeUpserts hp hs)

/-- C8 witness: an invalid-key FIND_NODE with one reachable attached peer
leaves exactly that upsert plus the warning in the trace. -/
theorem onFindNode_upserts_persist_on_invalid_key_witness :
    onFindNode env0 msgC8
      = findNodeUpserts [⟨⟨9, [[2]]⟩, Connectedness.connected⟩]
        ++ [Eff.warn] :=
  (onFindNode_upserts_persist_on_invalid_key env0 msgC8
    [⟨⟨9, [[2]]⟩, Connectedness.connected⟩] rfl rfl).1

end Kad
